import Mathlib

/-!
Verification of the benchmark aggregation and plotting scripts.

The development shallowly embeds the two pipelines of the repository:

* `CycleStats` embeds `cycle_stats.py`, the statistics pipeline: parsing a
  CSV body into per-column sample lists (dropping overflowed cycle counts),
  computing the descriptive statistics of `calc_stats`, and the raw/adjusted
  row generation of `read_csv` together with the directory walk
  `read_cpus → read_mitigations → read_kernels`.
* `Plotting` embeds `plotting/utils.py` / `plots.py`: the scenario table,
  `find_scenario`, `read_method`, the per-CPU chart guard `plot_scenario`
  and the improvement arrow `draw_arrow`.  numpy float cells that can be
  NaN are embedded as `Option ℚ` with `none` standing for NaN.
* `Fork` embeds `plotting/fork.py`: the kernel/mitigation/CPU readers whose
  missing-file policy returns a `none` sentinel instead of raising.

Machine floats are modelled by exact rationals; `int` by `ℤ`.  Fallible
operations (a missing file opened by `open()`) are modelled with `Except`.
-/

set_option maxRecDepth 8000

namespace CycleStats

/-- `OVERFLOW_THRESHOLD = 10**10` from cycle_stats.py: cycle counts larger
than this are ignored as counter-wraparound artifacts. -/
def OVERFLOW_THRESHOLD : ℤ := 10 ^ 10

/-- `NOOP_COL = "noop"`: the column whose median is subtracted for the
adjusted statistics. -/
def NOOP_COL : String := "noop"

/-- Sorting of the data, as performed internally by `np.median` and
`np.percentile`. -/
def sortQ (xs : List ℚ) : List ℚ := xs.insertionSort (· ≤ ·)

/-- Value of the sorted data `s` at a (rational) rank, linearly interpolated
between the neighbouring order statistics: numpy's default `linear`
interpolation for percentiles. -/
def interp (s : List ℚ) (rank : ℚ) : ℚ :=
  let k := (⌊rank⌋).toNat
  let lo := s.getD k 0
  let hi := s.getD (k + 1) lo
  lo + (rank - (k : ℚ)) * (hi - lo)

/-- `np.mean`: arithmetic mean.  On the empty list numpy warns and yields
NaN; the model yields `0` and all statements about the mean assume a
non-empty sample list. -/
def npMean (xs : List ℚ) : ℚ := xs.sum / (xs.length : ℚ)

/-- `np.median`: the average of the two middle elements of the sorted data
(the middle element itself for odd length). -/
def npMedian (xs : List ℚ) : ℚ :=
  let s := sortQ xs
  (s.getD ((s.length - 1) / 2) 0 + s.getD (s.length / 2) 0) / 2

/-- `np.percentile(xs, q)` with the default linear interpolation: the value
at rank `q * (n - 1) / 100` of the sorted data. -/
def percentileQ (xs : List ℚ) (q : ℚ) : ℚ :=
  interp (sortQ xs) (q * ((xs.length : ℚ) - 1) / 100)

/-- `np.min` (`0` on the empty list, where numpy raises). -/
def npMin : List ℚ → ℚ
  | [] => 0
  | x :: xs => xs.foldl min x

/-- `np.max` (`0` on the empty list, where numpy raises). -/
def npMax : List ℚ → ℚ
  | [] => 0
  | x :: xs => xs.foldl max x

/-- The statistical measures returned by `calc_stats`, in the source order
[mean, median, p1, p25, p50, p75, p99, std, iqr, min, max].  `np.std` is
the square root of the population variance; the model stores the variance
`varPop` itself (its square), since no claim refers to the standard
deviation's value and the square root of a rational is irrational in
general. -/
structure Stats where
  mean : ℚ
  median : ℚ
  p1 : ℚ
  p25 : ℚ
  p50 : ℚ
  p75 : ℚ
  p99 : ℚ
  varPop : ℚ
  iqr : ℚ
  min : ℚ
  max : ℚ
deriving DecidableEq

/-- `calc_stats` from cycle_stats.py. -/
def calcStats (xs : List ℚ) : Stats :=
  let p1 := percentileQ xs 1
  let p25 := percentileQ xs 25
  let p50 := percentileQ xs 50
  let p75 := percentileQ xs 75
  let p99 := percentileQ xs 99
  { mean := npMean xs
    median := npMedian xs
    p1 := p1
    p25 := p25
    p50 := p50
    p75 := p75
    p99 := p99
    varPop := npMean (xs.map (fun x => (x - npMean xs) ^ 2))
    iqr := p75 - p25
    min := npMin xs
    max := npMax xs }

/-- The inner loop of `read_csv` over one parsed row, starting at cell
index `i`: a cell above the overflow threshold is skipped, every other
cell is appended to its column (`values[i].append(value)`).  A cell index
beyond the number of columns raises IndexError in the source; here the
`List.set` is a no-op, and the theorems below restrict to well-formed rows
where this cannot happen. -/
def readRowAux (values : List (List ℤ)) (i : ℕ) : List ℤ → List (List ℤ)
  | [] => values
  | v :: rest =>
    if OVERFLOW_THRESHOLD < v then readRowAux values (i + 1) rest
    else readRowAux (values.set i ((values.getD i []) ++ [v])) (i + 1) rest

/-- One iteration of the outer row loop of `read_csv`. -/
def readRow (values : List (List ℤ)) (row : List ℤ) : List (List ℤ) :=
  readRowAux values 0 row

/-- The column accumulation of `read_csv`: start from one empty list per
header column and process every body row. -/
def colSamples (n : ℕ) (rows : List (List ℤ)) : List (List ℤ) :=
  rows.foldl readRow (List.replicate n [])

/-- The kept part of one optional cell: dropped if absent or above the
overflow threshold.  Used to state the closed form of `colSamples`. -/
def keepCell : Option ℤ → List ℤ
  | none => []
  | some v => if OVERFLOW_THRESHOLD < v then [] else [v]

/-- Closed form of column `i` of `colSamples`: the cells of column `i`, in
row order, with the overflowed ones dropped. -/
def colSpec (rows : List (List ℤ)) (i : ℕ) : List ℤ :=
  (rows.filterMap (fun row => row.get? i)).filter
    (fun v => !(decide (OVERFLOW_THRESHOLD < v)))

/-- The columns with no filtering at all: the target of the claim that the
filter is the identity transform on sample sets without overflows. -/
def unfilteredCols (n : ℕ) (rows : List (List ℤ)) : List (List ℤ) :=
  (List.range n).map (fun i => rows.filterMap (fun row => row.get? i))

/-- One output row of `read_csv`: [benchmark, adjusted, stats...]. -/
structure CsvRow where
  benchmark : String
  adjusted : Bool
  stats : Stats
deriving DecidableEq

/-- The raw (non-adjusted) result rows of `read_csv`, one per header
column. -/
def rawRows (header : List String) (rows : List (List ℤ)) : List CsvRow :=
  (header.zip (colSamples header.length rows)).map
    (fun p => ⟨p.1, false, calcStats (p.2.map (fun v : ℤ => (v : ℚ)))⟩)

/-- The `noop_median` variable of `read_csv`: the median statistic of the
noop column's filtered samples.  The source reassigns it for every column
named `noop`, so the last such column wins; it stays `None` when no column
is named `noop`. -/
def noopMedian? (header : List String) (rows : List (List ℤ)) : Option ℚ :=
  (((header.zip (colSamples header.length rows)).filter
      (fun p => p.1 == NOOP_COL)).getLast?).map
    (fun p => (calcStats (p.2.map (fun v : ℤ => (v : ℚ)))).median)

/-- The adjusted result rows of `read_csv`: every statistic recomputed on
`measurements - noop_median`. -/
def adjRows (header : List String) (rows : List (List ℤ)) (m : ℚ) : List CsvRow :=
  (header.zip (colSamples header.length rows)).map
    (fun p => ⟨p.1, true, calcStats (p.2.map (fun v : ℤ => (v : ℚ) - m))⟩)

/-- `read_csv` from cycle_stats.py, applied to the parsed header and body
of one file: the raw rows, followed by the adjusted rows when a noop
column exists. -/
def readCsv (header : List String) (rows : List (List ℤ)) : List CsvRow :=
  match noopMedian? header rows with
  | none => rawRows header rows
  | some m => rawRows header rows ++ adjRows header rows m

/-- One CSV file of the statistics pipeline, already split into its name,
header and parsed integer body. -/
structure CsvFile where
  name : String
  header : List String
  rows : List (List ℤ)
deriving DecidableEq

/-- One mitigation directory with its files. -/
structure MitiDir where
  name : String
  files : List CsvFile
deriving DecidableEq

/-- One CPU directory with its mitigation subdirectories. -/
structure CpuDir where
  name : String
  mitis : List MitiDir
deriving DecidableEq

/-- One fully qualified output row of the statistics pipeline:
[CPU, mitigation, kernel, benchmark, adjusted, stats...]. -/
structure FullRow where
  cpu : String
  mitigation : String
  kernel : String
  row : CsvRow
deriving DecidableEq

/-- `re.match("cycles-(.+)\\.csv", name)`: the name must start with
`cycles-`, and the greedy group is everything up to the last later
occurrence of `.csv` (at least one character long).  `re.match` anchors
only at the front of the string. -/
def matchCycles (name : String) : Option String :=
  let cs := name.data
  let pre := "cycles-".data
  if pre.isPrefixOf cs then
    let rest := cs.drop pre.length
    (((List.range rest.length).reverse).find?
        (fun i => decide (1 ≤ i) && ".csv".data.isPrefixOf (rest.drop i))).map
      (fun i => String.mk (rest.take i))
  else none

/-- `read_kernels`: the rows of every file whose name matches the cycles
pattern, each prefixed with the kernel name captured by the pattern. -/
def readKernels (mi : MitiDir) : List (String × CsvRow) :=
  mi.files.flatMap (fun f =>
    match matchCycles f.name with
    | none => []
    | some k => (readCsv f.header f.rows).map (fun r => (k, r)))

/-- `read_mitigations`: the kernel rows of every mitigation directory,
prefixed with the mitigation name. -/
def readMitigations (cpu : CpuDir) : List (String × String × CsvRow) :=
  cpu.mitis.flatMap (fun mi => (readKernels mi).map (fun r => (mi.name, r)))

/-- `read_cpus`: the mitigation rows of every CPU directory, assembled into
fully qualified output rows. -/
def readCpus (cpus : List CpuDir) : List FullRow :=
  cpus.flatMap (fun c => (readMitigations c).map (fun r => ⟨c.name, r.1, r.2.1, r.2.2⟩))

end CycleStats

namespace Plotting

/-- Python's substring containment `needle in haystack`, on character
lists: some tail of the haystack starts with the needle. -/
def substrOccurs (needle : List Char) : List Char → Bool
  | [] => needle.isEmpty
  | c :: rest => needle.isPrefixOf (c :: rest) || substrOccurs needle rest

/-- Python's `ident in label` on strings. -/
def pySubstr (needle hay : String) : Bool := substrOccurs needle.data hay.data

/-- The `SCENARIOS` table of plotting/utils.py / plots.py: plot titles with
their sets of identifying substrings, in insertion order. -/
def SCENARIOS : List (String × List String) :=
  [("Empty Function",
    ["fastcall_examples_noop", "ioctl_noop", "syscall_sys_ni_syscall", "vdso_noop"]),
   ("64-Byte Copy", ["array/64"])]

/-- The loop of `find_scenario` over the remaining scenarios, carrying the
running index `i` of `enumerate`. -/
def findScenarioAux (label : String) : List (List String) → ℕ → Option ℕ
  | [], _ => none
  | idents :: rest, i =>
    if idents.any (fun ident => pySubstr ident label) then some i
    else findScenarioAux label rest (i + 1)

/-- `find_scenario` from plotting/utils.py: the index of the first scenario
one of whose identifying substrings occurs in the label, else `None`.
(The source iterates each scenario's substring set and returns the running
`enumerate` index on the first hit; since every hit within one scenario
returns the same index, the set iteration order is irrelevant.) -/
def findScenario (label : String) : Option ℕ :=
  findScenarioAux label (SCENARIOS.map Prod.snd) 0

/-- Specification-side restatement of scenario resolution, following the
spec's words "a benchmark row belongs to the first scenario whose
substring set contains a match against the row's label column": the
offset-free first-match recursion, to be compared with `findScenario`. -/
def firstMatchIdx (tbl : List (List String)) (label : String) : Option ℕ :=
  match tbl with
  | [] => none
  | idents :: rest =>
    if idents.any (fun ident => pySubstr ident label) then some 0
    else (firstMatchIdx rest label).map (· + 1)

/-- The keys of the `MITIGATIONS` table of plotting/utils.py, in insertion
order. -/
def MITIGATIONS_KEYS : List String :=
  ["mitigations=auto", "nopti%mds=off", "mitigations=off"]

/-- The keys of the `METHODS` table of plotting/utils.py, in insertion
order. -/
def METHODS_KEYS : List String := ["vdso", "fastcall", "syscall", "ioctl"]

/-- One body row of a method CSV, already parsed: the `name` cell, the
`cpu_time` cell, and the `bytes_per_second` cell (`none` when the cell is
blank, in which case the source stores `np.nan`). -/
structure MRow where
  label : String
  cpuTime : ℚ
  bytes : Option ℚ
deriving DecidableEq

/-- `read_method` from plotting/utils.py / plots.py: a `(scenario, 2)`
array initialized with `np.zeros`, each row whose label resolves to a
scenario overwriting that scenario's latency/throughput entry.  Cells are
`Option ℚ` with `none` for NaN, so the zero initialization is
`(some 0, some 0)`. -/
def readMethod (rows : List MRow) : List (Option ℚ × Option ℚ) :=
  rows.foldl
    (fun arr row =>
      match findScenario row.label with
      | none => arr
      | some i => arr.set i (some row.cpuTime, row.bytes))
    (List.replicate SCENARIOS.length (some 0, some 0))

/-- `read_method` behind `open(method_file)`: a missing file raises
FileNotFoundError, modelled as `Except.error`. -/
def readMethodU (file : Option (List MRow)) :
    Except Unit (List (Option ℚ × Option ℚ)) :=
  match file with
  | none => Except.error ()
  | some rows => Except.ok (readMethod rows)

/-- `read_mitigation` from plotting/utils.py: one method file per entry of
`METHODS`, appended in order; an exception from `read_method` propagates
out of the loop at once. -/
def readMitigationU : List (Option (List MRow)) →
    Except Unit (List (List (Option ℚ × Option ℚ)))
  | [] => Except.ok []
  | f :: rest =>
    match readMethodU f with
    | Except.error e => Except.error e
    | Except.ok arr => (readMitigationU rest).map (fun l => arr :: l)

/-- `read_cpu` from plotting/utils.py: one mitigation directory per entry
of `MITIGATIONS`; an exception propagates. -/
def readCpuU : List (List (Option (List MRow))) →
    Except Unit (List (List (List (Option ℚ × Option ℚ))))
  | [] => Except.ok []
  | mi :: rest =>
    match readMitigationU mi with
    | Except.error e => Except.error e
    | Except.ok arr => (readCpuU rest).map (fun l => arr :: l)

/-- `read_benchmarks` from plotting/utils.py: results and names of the
scanned CPUs.  Nothing catches the FileNotFoundError of a missing leaf
file, so it aborts the whole scan. -/
def readBenchmarksU : List (String × List (List (Option (List MRow)))) →
    Except Unit (List (List (List (List (Option ℚ × Option ℚ)))) × List String)
  | [] => Except.ok ([], [])
  | c :: rest =>
    match readCpuU c.2 with
    | Except.error e => Except.error e
    | Except.ok arr =>
      match readBenchmarksU rest with
      | Except.error e => Except.error e
      | Except.ok acc => Except.ok (arr :: acc.1, c.1 :: acc.2)

/-- Python's built-in `round` on a rational: to the nearest integer, ties
to the even integer. -/
def pyRound (x : ℚ) : ℤ :=
  if x - ⌊x⌋ < 1 / 2 then ⌊x⌋
  else if 1 / 2 < x - ⌊x⌋ then ⌊x⌋ + 1
  else if ⌊x⌋ % 2 = 0 then ⌊x⌋ else ⌊x⌋ + 1

/-- `ARROW_IDS` from plotting/percpu.py: the positions of the two
`ARROW_METHODS` ("fastcall", "syscall") in the `METHODS` table. -/
def ARROW_IDS : ℕ × ℕ :=
  (METHODS_KEYS.findIdx (fun s => s == "fastcall"),
   METHODS_KEYS.findIdx (fun s => s == "syscall"))

/-- `ARROW_MITIGATION` from plotting/percpu.py: the position of
"mitigations=auto" in the `MITIGATIONS` table. -/
def ARROW_MITIGATION : ℕ :=
  MITIGATIONS_KEYS.findIdx (fun s => s == "mitigations=auto")

/-- The annotation produced by `draw_arrow`: the arrow runs from `yFrom`
to `yTo`, and the text box shows `text`. -/
structure Arrow where
  yFrom : ℚ
  yTo : ℚ
  percent : ℤ
  text : String
deriving DecidableEq

/-- `draw_arrow` from plotting/percpu.py / plots.py, applied to the two
compared values: `arrow_ys` is reversed when the first value exceeds the
second, so the arrow runs from the smaller to the larger value, and the
label is `round((arrow_ys[1] / arrow_ys[0] - 1) * 100)` rendered as
`"+N%"`. -/
def drawArrow (a b : ℚ) : Arrow :=
  let ys := if b < a then (b, a) else (a, b)
  let percent := pyRound ((ys.2 / ys.1 - 1) * 100)
  { yFrom := ys.1
    yTo := ys.2
    percent := percent
    text := "+" ++ toString percent ++ "%" }

/-- The chart written by `plot_scenario` when it is not skipped: the target
file, the y label, the bar values per mitigation, and the improvement
arrow (`ARROW_ENABLE` is true in the source). -/
structure Chart where
  file : String
  yLabel : String
  bars : List (List ℚ)
  arrow : Arrow
deriving DecidableEq

/-- `plot_scenario` from plotting/percpu.py: the slice is a
(mitigation × method) matrix of float cells; if any cell is NaN the
function returns before creating the figure and no chart file is
produced, modelled as `none`. -/
def plotScenario (plotFile yLabel : String) (results : List (List (Option ℚ))) :
    Option Chart :=
  if results.any (fun row => row.any (fun v => v.isNone)) then none
  else
    let bars := results.map (fun row => row.map (fun v => v.getD 0))
    let mrow := bars.getD ARROW_MITIGATION []
    some { file := plotFile
           yLabel := yLabel
           bars := bars
           arrow := drawArrow (mrow.getD ARROW_IDS.1 0) (mrow.getD ARROW_IDS.2 0) }

end Plotting

namespace Fork

/-- `MEASURES` from plotting/fork.py. -/
def MEASURES : List String := ["fork-simple", "fork-fastcall"]

/-- `SAMPLES` from plotting/fork.py: only this many body rows are read. -/
def SAMPLES : ℕ := 10000

/-- `SCALING = 10 ** -3` from plotting/fork.py. -/
def SCALING : ℚ := 1 / 1000

/-- One kernel result file of the fork pipeline, split into header and
parsed float body. -/
structure ForkFile where
  header : List String
  rows : List (List ℚ)
deriving DecidableEq

/-- The `col_map` of `read_kernel`: for each header column its position in
`MEASURES`, or `none` for the `-1` of the ValueError branch. -/
def colMap (header : List String) : List (Option ℕ) :=
  header.map (fun col => MEASURES.indexOf? col)

/-- One body row of `read_kernel`: start from `np.full(len(MEASURES),
np.nan)` and store each cell whose column is mapped to a measure. -/
def forkRow (cm : List (Option ℕ)) (row : List ℚ) : List (Option ℚ) :=
  (row.zip cm).foldl
    (fun arr vc =>
      match vc.2 with
      | none => arr
      | some k => arr.set k (some vc.1))
    (List.replicate MEASURES.length none)

/-- `np.median` along axis 0 for one measure column: NaN as soon as any
entry is NaN, otherwise the plain median. -/
def nanMedian (xs : List (Option ℚ)) : Option ℚ :=
  if xs.any (fun x => x.isNone) then none
  else some (CycleStats.npMedian (xs.filterMap id))

/-- The data computation of `read_kernel` on a present file: per-measure
median over the first `SAMPLES` rows, scaled by `SCALING`.  A file whose
body holds no rows makes the `np.stack(results)` of the empty row list
raise ValueError (fork.py line 142), modelled as `Except.error`. -/
def readKernelData (f : ForkFile) : Except Unit (List (Option ℚ)) :=
  let cm := colMap f.header
  let rows := (f.rows.take SAMPLES).map (forkRow cm)
  match rows with
  | [] => Except.error ()
  | _ :: _ =>
    Except.ok ((List.range MEASURES.length).map
      (fun j => (nanMedian (rows.map (fun r => r.getD j none))).map (fun v => v * SCALING)))

/-- `read_kernel` from plotting/fork.py: `None` when the data file does not
exist (`path.exists` guard), otherwise the computed measure array; the
ValueError of an empty present file propagates. -/
def readKernel (file : Option ForkFile) : Except Unit (Option (List (Option ℚ))) :=
  match file with
  | none => Except.ok none
  | some f => (readKernelData f).map some

/-- `read_mitigation` from plotting/fork.py: one file per entry of
`KERNELS`, appended in order; the loop returns the `None` sentinel as soon
as one kernel file is missing, and an exception from `read_kernel`
propagates out of the loop at once. -/
def readMitigation : List (Option ForkFile) →
    Except Unit (Option (List (List (Option ℚ))))
  | [] => Except.ok (some [])
  | f :: rest =>
    match readKernel f with
    | Except.error e => Except.error e
    | Except.ok none => Except.ok none
    | Except.ok (some arr) => (readMitigation rest).map (Option.map (fun l => arr :: l))

/-- `read_cpu` from plotting/fork.py: one directory per entry of
`MITIGATIONS`; the loop returns the `None` sentinel as soon as one
mitigation is incomplete, and an exception propagates. -/
def readCpu : List (List (Option ForkFile)) →
    Except Unit (Option (List (List (List (Option ℚ)))))
  | [] => Except.ok (some [])
  | mi :: rest =>
    match readMitigation mi with
    | Except.error e => Except.error e
    | Except.ok none => Except.ok none
    | Except.ok (some arr) => (readCpu rest).map (Option.map (fun l => arr :: l))

/-- The scan loop of `read_misc`: CPUs whose `read_cpu` returned the
`None` sentinel are skipped, kept arrays and names accumulate in scan
order, and an exception propagates. -/
def readMiscAux : List (String × List (List (Option ForkFile))) →
    Except Unit (List (List (List (List (Option ℚ)))) × List String)
  | [] => Except.ok ([], [])
  | c :: rest =>
    match readCpu c.2 with
    | Except.error e => Except.error e
    | Except.ok none => readMiscAux rest
    | Except.ok (some arr) => (readMiscAux rest).map (fun acc => (arr :: acc.1, c.1 :: acc.2))

/-- `read_misc` from plotting/fork.py: the scan loop followed by the final
`np.stack(results)` (fork.py line 75), which raises ValueError when every
CPU was excluded and the result list is empty, modelled as
`Except.error`. -/
def readMisc (cpus : List (String × List (List (Option ForkFile)))) :
    Except Unit (List (List (List (List (Option ℚ)))) × List String) :=
  match readMiscAux cpus with
  | Except.error e => Except.error e
  | Except.ok acc => if acc.1.isEmpty then Except.error () else Except.ok acc

/-- Closed form of the data kept for one CPU: its array when `read_cpu`
succeeds with data, nothing otherwise.  Used to state the exclusion
theorem. -/
def cpuData (c : String × List (List (Option ForkFile))) :
    Option (List (List (List (Option ℚ)))) :=
  match readCpu c.2 with
  | Except.ok (some arr) => some arr
  | _ => none

end Fork

open CycleStats Plotting Fork

/-- The `enumerate` index carried by `findScenarioAux` only offsets the
result of the offset-free first-match recursion. -/
theorem findScenarioAux_eq (label : String) :
    ∀ (tbl : List (List String)) (i : ℕ),
      findScenarioAux label tbl i
        = (firstMatchIdx tbl label).map (fun j => i + j)
  | [], i => by simp [findScenarioAux, firstMatchIdx]
  | idents :: rest, i => by
    by_cases h : idents.any (fun ident => pySubstr ident label)
    · simp [findScenarioAux, firstMatchIdx, h]
    · simp only [findScenarioAux, firstMatchIdx, h, if_false, Bool.false_eq_true]
      rw [findScenarioAux_eq label rest (i + 1)]
      cases firstMatchIdx rest label with
      | none => rfl
      | some j =>
        show some (i + 1 + j) = some (i + (j + 1))
        exact congrArg some (by omega)

/-- C4: scenario resolution is a pure function of the row's label text and
the static scenario table — a label is assigned to the first scenario (in
table order) one of whose identifying substrings occurs in the label, and
a label matching no scenario is dropped; concretely,
"syscall_sys_ni_syscall" resolves to the index of "Empty Function",
"array/64" to the index of "64-Byte Copy", and an unrelated label to no
index. -/
theorem find_scenario_resolution :
    (∀ label : String,
      findScenario label = firstMatchIdx (SCENARIOS.map Prod.snd) label) ∧
    SCENARIOS.map Prod.fst = ["Empty Function", "64-Byte Copy"] ∧
    findScenario "syscall_sys_ni_syscall" = some 0 ∧
    findScenario "array/64" = some 1 ∧
    findScenario "totally_unrelated" = none := by
  refine ⟨fun label => ?_, by decide, by decide, by decide, by decide⟩
  rw [findScenario, findScenarioAux_eq label]
  cases firstMatchIdx (SCENARIOS.map Prod.snd) label with
  | none => simp
  | some j => simp

/-- `getD` through `getElem?`, the form the `set` lemmas speak about. -/
theorem listGetD_eq_elem? {α : Type} (l : List α) (n : ℕ) (d : α) :
    l.getD n d = (l[n]?).getD d := by
  rw [List.getD_eq_getD_get?, List.get?_eq_getElem?]

/-- The row loop never changes the number of columns. -/
theorem readRowAux_length : ∀ (row : List ℤ) (values : List (List ℤ)) (i : ℕ),
    (readRowAux values i row).length = values.length
  | [], _, _ => rfl
  | v :: rest, values, i => by
    rw [readRowAux]
    by_cases h : OVERFLOW_THRESHOLD < v
    · rw [if_pos h, readRowAux_length rest values (i + 1)]
    · rw [if_neg h, readRowAux_length rest _ (i + 1), List.length_set]

/-- Processing one row starting at cell index `i` appends to column `j`
exactly the kept part of the row's cell `j - i`. -/
theorem readRowAux_getD : ∀ (row : List ℤ) (values : List (List ℤ)) (i j : ℕ),
    j < values.length →
    (readRowAux values i row).getD j []
      = values.getD j [] ++ (if i ≤ j then keepCell (row.get? (j - i)) else [])
  | [], values, i, j, _ => by
    rcases le_or_lt i j with h | h <;> simp [readRowAux, keepCell, h]
  | v :: rest, values, i, j, hj => by
    rw [readRowAux]
    by_cases hv : OVERFLOW_THRESHOLD < v
    · rw [if_pos hv, readRowAux_getD rest values (i + 1) j hj]
      congr 1
      rcases Nat.lt_trichotomy j i with hji | rfl | hij
      · rw [if_neg (by omega), if_neg (by omega)]
      · rw [if_neg (by omega), if_pos (le_refl j), Nat.sub_self]
        simp [keepCell, hv]
      · rw [if_pos (by omega), if_pos (by omega)]
        have hsub : j - i = (j - (i + 1)) + 1 := by omega
        rw [hsub, List.get?_cons_succ]
    · rw [if_neg hv]
      have hlen : j < (values.set i ((values.getD i []) ++ [v])).length := by
        rw [List.length_set]; exact hj
      rw [readRowAux_getD rest _ (i + 1) j hlen]
      rcases Nat.lt_trichotomy j i with hji | rfl | hij
      · rw [if_neg (by omega), if_neg (by omega), listGetD_eq_elem?,
          List.getElem?_set_ne (by omega), ← listGetD_eq_elem?]
      · rw [if_neg (by omega), if_pos (le_refl j), Nat.sub_self, List.get?_cons_zero,
          List.append_nil, listGetD_eq_elem?, List.getElem?_set_self hj]
        simp [keepCell, hv]
      · rw [if_pos (by omega), if_pos (by omega)]
        have hsub : j - i = (j - (i + 1)) + 1 := by omega
        rw [hsub, List.get?_cons_succ, listGetD_eq_elem?,
          List.getElem?_set_ne (by omega), ← listGetD_eq_elem?]

/-- Folding the row loop over the body preserves the number of columns. -/
theorem foldl_readRow_length : ∀ (rows : List (List ℤ)) (values : List (List ℤ)),
    (rows.foldl readRow values).length = values.length
  | [], _ => rfl
  | row :: rest, values => by
    rw [List.foldl_cons, foldl_readRow_length rest _, readRow, readRowAux_length]

/-- Folding the row loop appends to column `i` exactly the filtered cells
of column `i`. -/
theorem foldl_readRow_getD : ∀ (rows : List (List ℤ)) (values : List (List ℤ)) (i : ℕ),
    i < values.length →
    (rows.foldl readRow values).getD i [] = values.getD i [] ++ colSpec rows i
  | [], values, i, _ => by simp [colSpec]
  | row :: rest, values, i, hi => by
    rw [List.foldl_cons,
      foldl_readRow_getD rest _ i (by rw [readRow, readRowAux_length]; exact hi),
      readRow, readRowAux_getD row values 0 i hi, if_pos (Nat.zero_le i), Nat.sub_zero,
      List.append_assoc]
    congr 1
    rw [colSpec, colSpec, List.filterMap_cons]
    cases h : row.get? i with
    | none => simp [keepCell]
    | some v =>
      rw [List.filter_cons]
      by_cases hv : OVERFLOW_THRESHOLD < v
      · simp [keepCell, hv]
      · simp [keepCell, hv]

/-- The accumulated columns have one entry per header column. -/
theorem colSamples_length (n : ℕ) (rows : List (List ℤ)) :
    (colSamples n rows).length = n := by
  rw [colSamples, foldl_readRow_length, List.length_replicate]

/-- Closed form of `colSamples`: column `i` holds the in-range cells of
column `i` in row order, minus the overflowed ones. -/
theorem colSamples_getD (n : ℕ) (rows : List (List ℤ)) (i : ℕ) (hi : i < n) :
    (colSamples n rows).getD i [] = colSpec rows i := by
  rw [colSamples, foldl_readRow_getD rows _ i (by rw [List.length_replicate]; exact hi),
    listGetD_eq_elem?, List.getElem?_replicate, if_pos hi]
  rfl

/-- C1 counterexample: the source filter compares the signed value
(`value > OVERFLOW_THRESHOLD`), not its absolute value, so the sample
`-(10^11)` — whose absolute value exceeds the threshold — survives the
filter instead of being discarded. -/
theorem overflow_filter_abs_cex :
    OVERFLOW_THRESHOLD < |(-(10 ^ 11) : ℤ)| ∧
    (-(10 ^ 11) : ℤ) ∈ (colSamples 1 [[-(10 ^ 11)]]).getD 0 [] := by decide

/-- C1 (amended): the sample filter discards, before any aggregation,
exactly those samples whose signed value exceeds the overflow threshold
10^10; consequently filtering is the identity transform on sample sets
whose values are all ≤ the threshold, and every sample with value above
the threshold is excluded from every column's sample list (and hence from
every statistic of its column). -/
theorem overflow_filter_amended (n : ℕ) (rows : List (List ℤ)) :
    ((∀ row ∈ rows, ∀ v ∈ row, v ≤ OVERFLOW_THRESHOLD) →
      colSamples n rows = unfilteredCols n rows) ∧
    (∀ i : ℕ, ∀ v : ℤ, OVERFLOW_THRESHOLD < v →
      v ∉ (colSamples n rows).getD i []) := by
  constructor
  · intro hall
    apply List.ext_getElem?
    intro i
    by_cases hi : i < n
    · have h1 : (colSamples n rows)[i]? = some ((colSamples n rows).getD i []) := by
        rw [List.getD_eq_getElem _ _ (by rw [colSamples_length]; exact hi),
          List.getElem?_eq_getElem (by rw [colSamples_length]; exact hi)]
      rw [h1, colSamples_getD n rows i hi, unfilteredCols, List.getElem?_map,
        List.getElem?_range hi]
      rw [colSpec, List.filter_eq_self.mpr]
      · rfl
      · intro v hv
        rcases List.mem_filterMap.mp hv with ⟨row, hrow, hget⟩
        have := hall row hrow v (List.get?_mem hget)
        simpa using this
    · rw [List.getElem?_eq_none (by rw [colSamples_length]; omega),
        List.getElem?_eq_none (by simp [unfilteredCols]; omega)]
  · intro i v hv hmem
    by_cases hi : i < n
    · rw [colSamples_getD n rows i hi, colSpec] at hmem
      have := List.of_mem_filter hmem
      simp at this
      omega
    · rw [List.getD_eq_default _ _ (by rw [colSamples_length]; omega)] at hmem
      exact (List.not_mem_nil v) hmem

/-- Witness for the amended C1, at concrete inputs: a file without
overflows is passed through unchanged, and the overflowed sample `10^11`
is excluded. -/
theorem overflow_filter_amended_witness :
    colSamples 2 [[1, 2], [3, 4]] = unfilteredCols 2 [[1, 2], [3, 4]] ∧
    (10 ^ 11 : ℤ) ∉ (colSamples 1 [[10 ^ 11]]).getD 0 [] :=
  ⟨(overflow_filter_amended 2 [[1, 2], [3, 4]]).1 (by decide),
   (overflow_filter_amended 1 [[10 ^ 11]]).2 0 (10 ^ 11) (by decide)⟩

/-- The read loop of `read_csv` looks at each cell independently: changing
one cell of one row never changes any other column's accumulated
samples. -/
theorem filterMap_get?_set : ∀ (rows : List (List ℤ)) (r i j : ℕ) (x : ℤ),
    j ≠ i →
    ((rows.set r ((rows.getD r []).set i x)).filterMap (fun row => row.get? j))
      = rows.filterMap (fun row => row.get? j)
  | [], _, _, _, _, _ => rfl
  | head :: tail, r, i, j, x, hij => by
    cases r with
    | zero =>
      rw [List.getD_cons_zero, List.set_cons_zero, List.filterMap_cons, List.filterMap_cons,
        List.get?_eq_getElem?, List.get?_eq_getElem?, List.getElem?_set_ne (by omega)]
    | succ s =>
      rw [List.getD_cons_succ, List.set_cons_succ, List.filterMap_cons, List.filterMap_cons,
        filterMap_get?_set tail s i j x hij]

/-- C10: the overflow filter of the statistics pipeline acts on each cell
independently — replacing cell `i` of any row (in particular by an
overflowed value) leaves the accumulated samples of every other column `j`
unchanged, so the remaining cells of that row are still kept; per-column
sample counts of one file can therefore differ, as witnessed by a file
whose second column loses an overflowed cell while the first keeps both
rows. -/
theorem overflow_filter_frame (n : ℕ) (rows : List (List ℤ)) (r i j : ℕ) (x : ℤ)
    (hij : j ≠ i) :
    (colSamples n (rows.set r ((rows.getD r []).set i x))).getD j []
      = (colSamples n rows).getD j [] ∧
    (colSamples 2 [[1, OVERFLOW_THRESHOLD + 1], [2, 3]]).map List.length = [2, 1] := by
  constructor
  · by_cases hj : j < n
    · rw [colSamples_getD n _ j hj, colSamples_getD n rows j hj, colSpec, colSpec,
        filterMap_get?_set rows r i j x hij]
    · rw [List.getD_eq_default _ _ (by rw [colSamples_length]; omega),
        List.getD_eq_default _ _ (by rw [colSamples_length]; omega)]
  · decide

/-- Witness for C10 at a concrete input: overwriting the second cell of
the first row with an overflowed value leaves the first column's samples
unchanged. -/
theorem overflow_filter_frame_witness :
    (colSamples 2 ([[1, 2], [3, 4]].set 0 (([[1, 2], [3, 4]].getD 0 []).set 1 (10 ^ 11)))).getD 0 []
      = (colSamples 2 [[1, 2], [3, 4]]).getD 0 [] ∧
    (colSamples 2 [[1, OVERFLOW_THRESHOLD + 1], [2, 3]]).map List.length = [2, 1] :=
  overflow_filter_frame 2 [[1, 2], [3, 4]] 0 1 0 (10 ^ 11) (by decide)

/-- The scenario-overwrite fold of `read_method`: entry `i` of the array
is the value of the last row resolving to scenario `i`, or the initial
entry when no row does. -/
theorem readMethod_foldl_getD :
    ∀ (rows : List MRow) (acc : List (Option ℚ × Option ℚ)) (i : ℕ),
      i < acc.length →
      (rows.foldl
          (fun acc row =>
            match findScenario row.label with
            | none => acc
            | some j => acc.set j (some row.cpuTime, row.bytes)) acc).getD i (none, none)
        = match (rows.filter (fun q => findScenario q.label == some i)).getLast? with
          | none => acc.getD i (none, none)
          | some r => (some r.cpuTime, r.bytes)
  | [], acc, i, _ => by simp
  | row :: rest, acc, i, hi => by
    simp only [List.foldl_cons, List.filter_cons]
    cases h : findScenario row.label with
    | none =>
      have hcond : ((none : Option ℕ) == some i) = false := rfl
      simp only [h, hcond, Bool.false_eq_true, if_false]
      exact readMethod_foldl_getD rest acc i hi
    | some k =>
      by_cases hk : k = i
      · subst hk
        have hcond : ((some k : Option ℕ) == some k) = true := by simp
        simp only [h, hcond, if_true]
        rw [readMethod_foldl_getD rest (acc.set k (some row.cpuTime, row.bytes)) k
            (by rw [List.length_set]; exact hi)]
        cases hfl : rest.filter (fun q => findScenario q.label == some k) with
        | nil =>
          simp only [List.getLast?_nil, List.getLast?_singleton]
          rw [listGetD_eq_elem?, List.getElem?_set_self hi]
          rfl
        | cons x t =>
          rw [List.getLast?_cons_cons]
          cases hgl : (x :: t).getLast? with
          | none => simp at hgl
          | some y => rfl
      · have hcond : ((some k : Option ℕ) == some i) = false := by simp [hk]
        simp only [h, hcond, Bool.false_eq_true, if_false]
        rw [readMethod_foldl_getD rest (acc.set k (some row.cpuTime, row.bytes)) i
            (by rw [List.length_set]; exact hi)]
        have hset : (acc.set k (some row.cpuTime, row.bytes)).getD i (none, none)
            = acc.getD i (none, none) := by
          rw [listGetD_eq_elem?, List.getElem?_set_ne hk, ← listGetD_eq_elem?]
        rw [hset]

/-- C9: in the plotting pipeline's per-method CSV reader, the scenario
array starts as `np.zeros`, so a scenario matched by no row of the file
keeps the value pair (0.0, 0.0) — not NaN and not a missing-data marker —
and when several rows resolve to the same scenario, the last such row's
values overwrite all earlier ones. -/
theorem read_method_zeros_last_wins (rows : List MRow) (i : ℕ)
    (hi : i < SCENARIOS.length) :
    ((∀ r ∈ rows, findScenario r.label ≠ some i) →
      (readMethod rows).getD i (none, none) = (some 0, some 0)) ∧
    (∀ r : MRow,
      (rows.filter (fun q => findScenario q.label == some i)).getLast? = some r →
      (readMethod rows).getD i (none, none) = (some r.cpuTime, r.bytes)) := by
  have hkey := readMethod_foldl_getD rows
    (List.replicate SCENARIOS.length (some 0, some 0)) i
    (by rw [List.length_replicate]; exact hi)
  constructor
  · intro hnone
    have hfil : rows.filter (fun q => findScenario q.label == some i) = [] := by
      rw [List.filter_eq_nil_iff]
      intro r hr
      simp [hnone r hr]
    unfold readMethod
    rw [hkey, hfil, List.getLast?_nil, listGetD_eq_elem?, List.getElem?_replicate,
      if_pos hi]
    rfl
  · intro r hr
    unfold readMethod
    rw [hkey, hr]

/-- Witness for C9: scenario 0 is matched by no row and keeps (0, 0),
while scenario 1 is matched by the first two rows and holds the values of
the second (the last matching) one. -/
theorem read_method_zeros_last_wins_witness :
    (readMethod [⟨"array/64", 5, none⟩, ⟨"array/64", 7, some 3⟩,
      ⟨"unmatched", 9, some 4⟩]).getD 0 (none, none) = (some 0, some 0) ∧
    (readMethod [⟨"array/64", 5, none⟩, ⟨"array/64", 7, some 3⟩,
      ⟨"unmatched", 9, some 4⟩]).getD 1 (none, none) = (some 7, some 3) :=
  ⟨(read_method_zeros_last_wins _ 0 (by decide)).1 (by decide),
   (read_method_zeros_last_wins _ 1 (by decide)).2 ⟨"array/64", 7, some 3⟩ (by decide)⟩

/-- C2 counterexample: in the per-method plotting pipeline
(`read_benchmarks → read_cpu → read_mitigation → read_method` of
plotting/utils.py), `read_method` opens the leaf file without an existence
check and nothing catches the FileNotFoundError, so a single missing
mitigation × method leaf aborts the whole run with an error instead of
excluding that CPU from the result set. -/
theorem plotting_missing_leaf_cex :
    readBenchmarksU [("cpu0", [[(none : Option (List MRow))]])] = Except.error () := by
  rfl

/-- A present kernel file with a non-empty body reads without error. -/
theorem readKernel_no_error (f : Option ForkFile)
    (hf : ∀ ff ∈ f, ff.rows ≠ []) :
    ∃ r, Fork.readKernel f = Except.ok r := by
  cases f with
  | none => exact ⟨none, rfl⟩
  | some ff =>
    have hne : ff.rows ≠ [] := hf ff rfl
    cases hk : Fork.readKernel (some ff) with
    | ok r => exact ⟨r, rfl⟩
    | error e =>
      cases hr : ff.rows with
      | nil => exact absurd hr hne
      | cons r rs =>
        simp only [Fork.readKernel, Fork.readKernelData, hr,
          show Fork.SAMPLES = 9999 + 1 from rfl, List.take_succ_cons,
          List.map_cons, Except.map] at hk
        exact Except.noConfusion hk

/-- A mitigation directory whose present files are non-empty reads without
error. -/
theorem readMitigation_no_error : ∀ (mi : List (Option ForkFile)),
    (∀ f ∈ mi, ∀ ff ∈ f, ff.rows ≠ []) →
    ∃ r, Fork.readMitigation mi = Except.ok r
  | [], _ => ⟨some [], rfl⟩
  | f :: rest, hwf => by
    obtain ⟨r, hr⟩ := readKernel_no_error f (hwf f (List.mem_cons_self f rest))
    cases r with
    | none => exact ⟨none, by simp [Fork.readMitigation, hr]⟩
    | some arr =>
      obtain ⟨r2, hr2⟩ := readMitigation_no_error rest
        (fun g hg => hwf g (List.mem_cons_of_mem f hg))
      exact ⟨r2.map (fun l => arr :: l),
        by simp [Fork.readMitigation, hr, hr2, Except.map]⟩

/-- A CPU directory whose present files are non-empty reads without
error. -/
theorem readCpu_no_error : ∀ (mitis : List (List (Option ForkFile))),
    (∀ mi ∈ mitis, ∀ f ∈ mi, ∀ ff ∈ f, ff.rows ≠ []) →
    ∃ r, Fork.readCpu mitis = Except.ok r
  | [], _ => ⟨some [], rfl⟩
  | m :: rest, hwf => by
    obtain ⟨r, hr⟩ := readMitigation_no_error m (hwf m (List.mem_cons_self m rest))
    cases r with
    | none => exact ⟨none, by simp [Fork.readCpu, hr]⟩
    | some arr =>
      obtain ⟨r2, hr2⟩ := readCpu_no_error rest
        (fun g hg => hwf g (List.mem_cons_of_mem m hg))
      exact ⟨r2.map (fun l => arr :: l),
        by simp [Fork.readCpu, hr, hr2, Except.map]⟩

/-- A missing kernel file makes the whole mitigation read the `None`
sentinel (present files being non-empty, so that no earlier file
raises). -/
theorem fork_readMitigation_none : ∀ (mi : List (Option ForkFile)),
    (∀ f ∈ mi, ∀ ff ∈ f, ff.rows ≠ []) →
    (none : Option ForkFile) ∈ mi →
    Fork.readMitigation mi = Except.ok none
  | f :: rest, hwf, hnone => by
    rcases List.mem_cons.mp hnone with rfl | hnone
    · rfl
    · obtain ⟨r, hr⟩ := readKernel_no_error f (hwf f (List.mem_cons_self f rest))
      cases r with
      | none => simp [Fork.readMitigation, hr]
      | some arr =>
        have ih := fork_readMitigation_none rest
          (fun g hg => hwf g (List.mem_cons_of_mem f hg)) hnone
        simp [Fork.readMitigation, hr, ih, Except.map]

/-- A mitigation with a missing kernel file makes the whole CPU read the
`None` sentinel. -/
theorem fork_readCpu_none : ∀ (mitis : List (List (Option ForkFile))),
    (∀ mi ∈ mitis, ∀ f ∈ mi, ∀ ff ∈ f, ff.rows ≠ []) →
    ∀ mi ∈ mitis, (none : Option ForkFile) ∈ mi →
    Fork.readCpu mitis = Except.ok none
  | m :: rest, hwf, mi, hmi, hnone => by
    rcases List.mem_cons.mp hmi with rfl | hmi
    · simp [Fork.readCpu,
        fork_readMitigation_none mi (hwf mi (List.mem_cons_self mi rest)) hnone]
    · obtain ⟨r, hr⟩ := readMitigation_no_error m (hwf m (List.mem_cons_self m rest))
      cases r with
      | none => simp [Fork.readCpu, hr]
      | some arr =>
        have ih := fork_readCpu_none rest
          (fun g hg => hwf g (List.mem_cons_of_mem m hg)) mi hmi hnone
        simp [Fork.readCpu, hr, ih, Except.map]

/-- The scan loop of `read_misc` keeps exactly the CPUs whose read
produced data, in order, when present files are non-empty. -/
theorem readMiscAux_characterization :
    ∀ (cpus : List (String × List (List (Option ForkFile)))),
    (∀ c ∈ cpus, ∀ mi ∈ c.2, ∀ f ∈ mi, ∀ ff ∈ f, ff.rows ≠ []) →
    Fork.readMiscAux cpus
      = Except.ok (cpus.filterMap Fork.cpuData,
          (cpus.filter (fun c => (Fork.cpuData c).isSome)).map Prod.fst)
  | [], _ => rfl
  | c :: rest, hwf => by
    obtain ⟨r, hr⟩ := readCpu_no_error c.2 (hwf c (List.mem_cons_self c rest))
    have ih := readMiscAux_characterization rest
      (fun g hg => hwf g (List.mem_cons_of_mem c hg))
    cases r with
    | none =>
      have hcd : Fork.cpuData c = none := by simp [Fork.cpuData, hr]
      simp [Fork.readMiscAux, hr, ih, hcd, List.filterMap_cons, List.filter_cons]
    | some arr =>
      have hcd : Fork.cpuData c = some arr := by simp [Fork.cpuData, hr]
      simp [Fork.readMiscAux, hr, ih, hcd, List.filterMap_cons, List.filter_cons,
        Except.map]

/-- C2 (amended): in the fork plotting pipeline (plotting/fork.py), over
result trees whose present kernel files are non-empty, a missing leaf CSV
makes the whole CPU read return the `None` "no data" sentinel without
raising, and the scan keeps exactly the CPUs whose read produced data, in
order — a CPU with a missing file is excluded from the result set
entirely, never filled with placeholder values; the run then completes
with exactly those CPUs whenever at least one CPU still has data, while
`read_misc`'s final `np.stack` of the empty result list raises when every
CPU was excluded.  In the per-method plotting pipeline of
plotting/utils.py, by contrast, a missing leaf file is an uncaught
FileNotFoundError: a hard failure for the whole run (see the
counterexample). -/
theorem fork_missing_file_excluded
    (cpus : List (String × List (List (Option ForkFile))))
    (hwf : ∀ c ∈ cpus, ∀ mi ∈ c.2, ∀ f ∈ mi, ∀ ff ∈ f, ff.rows ≠ []) :
    (∀ c ∈ cpus, (∃ mi ∈ c.2, (none : Option ForkFile) ∈ mi) →
      Fork.readCpu c.2 = Except.ok none) ∧
    Fork.readMiscAux cpus
      = Except.ok (cpus.filterMap Fork.cpuData,
          (cpus.filter (fun c => (Fork.cpuData c).isSome)).map Prod.fst) ∧
    (∀ acc, Fork.readMiscAux cpus = Except.ok acc →
      (acc.1 ≠ [] → Fork.readMisc cpus = Except.ok acc) ∧
      (acc.1 = [] → Fork.readMisc cpus = Except.error ())) := by
  refine ⟨?_, readMiscAux_characterization cpus hwf, ?_⟩
  · rintro c hc ⟨mi, hmi, hnone⟩
    exact fork_readCpu_none c.2 (hwf c hc) mi hmi hnone
  · intro acc hacc
    constructor
    · intro h1
      cases h : acc.1 with
      | nil => exact absurd h h1
      | cons x xs =>
        simp only [Fork.readMisc, hacc, h, List.isEmpty_cons, Bool.false_eq_true,
          if_false]
    · intro h1
      simp only [Fork.readMisc, hacc, h1, List.isEmpty_nil, if_true]

/-- Witness for the amended C2: the CPU "a" with a missing leaf file reads
to the `None` sentinel and is excluded, while the CPU "b" with a present
one-row file is kept, and the run completes with "b" alone. -/
theorem fork_missing_file_excluded_witness :
    Fork.readCpu [[(none : Option ForkFile)]] = Except.ok none ∧
    Fork.readMiscAux [("a", [[none]]),
        ("b", [[some (⟨["fork-simple"], [[7]]⟩ : ForkFile)]])]
      = Except.ok ([[[[some (7 / 1000), none]]]], ["b"]) ∧
    Fork.readMisc [("a", [[none]]),
        ("b", [[some (⟨["fork-simple"], [[7]]⟩ : ForkFile)]])]
      = Except.ok ([[[[some (7 / 1000), none]]]], ["b"]) := by
  have hwf1 : ∀ c ∈ [("a", [[(none : Option ForkFile)]])],
      ∀ mi ∈ c.2, ∀ f ∈ mi, ∀ ff ∈ f, ff.rows ≠ [] := by decide
  have hwf2 : ∀ c ∈ [("a", [[(none : Option ForkFile)]]),
      ("b", [[some (⟨["fork-simple"], [[7]]⟩ : ForkFile)]])],
      ∀ mi ∈ c.2, ∀ f ∈ mi, ∀ ff ∈ f, ff.rows ≠ [] := by decide
  have hcm : Fork.colMap ["fork-simple"] = [some 0] := by decide
  have hfr : Fork.forkRow [some 0] [(7 : ℚ)] = [some 7, none] := by decide
  have h2 : Fork.readMiscAux [("a", [[none]]),
        ("b", [[some (⟨["fork-simple"], [[7]]⟩ : ForkFile)]])]
      = Except.ok ([[[[some (7 / 1000), none]]]], ["b"]) :=
    (fork_missing_file_excluded _ hwf2).2.1.trans (by
      norm_num [Fork.cpuData, Fork.readCpu, Fork.readMitigation, Fork.readKernel,
        Fork.readKernelData, hcm, hfr, Fork.nanMedian, CycleStats.npMedian,
        CycleStats.sortQ, List.insertionSort, List.orderedInsert, Fork.SCALING,
        Fork.MEASURES, List.range_succ, List.filterMap_cons, List.filter_cons,
        Except.map, show Fork.SAMPLES = 9999 + 1 from rfl, List.take_succ_cons,
        List.take_nil, List.getD_cons_zero, List.getD_cons_succ]
      exact ⟨7, ⟨by simp, rfl⟩, by norm_num⟩)
  refine ⟨(fork_missing_file_excluded _ hwf1).1 ("a", [[none]]) (by decide)
      ⟨[none], by decide, by decide⟩, h2,
    ((fork_missing_file_excluded _ hwf2).2.2 _ h2).1 (by decide)⟩

/-- C7: whenever the per-CPU slice handed to the scenario renderer
contains a not-a-number value, `plot_scenario` returns before creating the
figure — no chart file is produced and no error is raised (the model is a
total function returning the `none` chart). -/
theorem plot_scenario_nan_skip (plotFile yLabel : String)
    (results : List (List (Option ℚ)))
    (h : ∃ row ∈ results, (none : Option ℚ) ∈ row) :
    plotScenario plotFile yLabel results = none := by
  rcases h with ⟨row, hrow, hnone⟩
  have hany : results.any (fun row => row.any (fun v => v.isNone)) = true := by
    rw [List.any_eq_true]
    refine ⟨row, hrow, ?_⟩
    rw [List.any_eq_true]
    exact ⟨none, hnone, rfl⟩
  simp only [plotScenario, hany, if_true]

/-- Witness for C7: a slice holding a NaN cell produces no chart. -/
theorem plot_scenario_nan_skip_witness :
    plotScenario "file" "label" [[some 1, none], [some 2, some 3]] = none :=
  plot_scenario_nan_skip "file" "label" [[some 1, none], [some 2, some 3]]
    ⟨[some 1, none], by decide, by decide⟩

/-- Python's `round` of a non-negative number is non-negative. -/
theorem pyRound_nonneg (x : ℚ) (hx : 0 ≤ x) : 0 ≤ pyRound x := by
  have hfl : (0 : ℤ) ≤ ⌊x⌋ := Int.floor_nonneg.mpr hx
  simp only [pyRound]
  split
  · exact hfl
  · split
    · omega
    · split
      · exact hfl
      · omega

/-- C8 counterexample: the computed percentage can be negative — on the
pair (1, -1) the arrow is reversed to run from -1 to 1 and the annotated
percentage is round((1 / -1 - 1) * 100) = -200. -/
theorem draw_arrow_percent_neg_cex : (drawArrow 1 (-1)).percent < 0 := by
  norm_num [drawArrow, pyRound]

/-- C8 (amended): for every pair of positive values compared by the
improvement arrow, the arrow is drawn from the smaller to the larger
value, the annotated percentage is round((larger/smaller - 1) * 100)
rendered as "+N%", and this percentage is never negative.  (For values
that are not both positive the percentage can be negative, see the
counterexample.) -/
theorem draw_arrow_spec (a b : ℚ) (ha : 0 < a) (hb : 0 < b) :
    (drawArrow a b).yFrom = min a b ∧
    (drawArrow a b).yTo = max a b ∧
    (drawArrow a b).percent = pyRound ((max a b / min a b - 1) * 100) ∧
    0 ≤ (drawArrow a b).percent ∧
    (drawArrow a b).text = "+" ++ toString (drawArrow a b).percent ++ "%" := by
  rcases le_or_lt a b with hab | hab
  · have hlt : ¬b < a := not_lt.mpr hab
    have hmin : min a b = a := min_eq_left hab
    have hmax : max a b = b := max_eq_right hab
    have hpos : 0 ≤ (b / a - 1) * 100 := by
      have h1 : (1 : ℚ) ≤ b / a := (one_le_div ha).mpr hab
      nlinarith
    refine ⟨?_, ?_, ?_, ?_, rfl⟩ <;>
      simp only [drawArrow, if_neg hlt, hmin, hmax]
    exact pyRound_nonneg _ hpos
  · have hmin : min a b = b := min_eq_right (le_of_lt hab)
    have hmax : max a b = a := max_eq_left (le_of_lt hab)
    have hpos : 0 ≤ (a / b - 1) * 100 := by
      have h1 : (1 : ℚ) ≤ a / b := (one_le_div hb).mpr (le_of_lt hab)
      nlinarith
    refine ⟨?_, ?_, ?_, ?_, rfl⟩ <;>
      simp only [drawArrow, if_pos hab, hmin, hmax]
    exact pyRound_nonneg _ hpos

/-- Witness for the amended C8 at the positive pair (2, 3). -/
theorem draw_arrow_spec_witness :
    (drawArrow 2 3).yFrom = min 2 3 ∧
    (drawArrow 2 3).yTo = max 2 3 ∧
    (drawArrow 2 3).percent = pyRound ((max 2 3 / min 2 3 - 1) * 100) ∧
    0 ≤ (drawArrow 2 3).percent ∧
    (drawArrow 2 3).text = "+" ++ toString (drawArrow 2 3).percent ++ "%" :=
  draw_arrow_spec 2 3 (by norm_num) (by norm_num)

/-- Sum of a shifted sample list. -/
theorem sum_map_sub (xs : List ℚ) (m : ℚ) :
    (xs.map (fun x => x - m)).sum = xs.sum - xs.length * m := by
  induction xs with
  | nil => simp
  | cons x t ih =>
    simp only [List.map_cons, List.sum_cons, ih, List.length_cons]
    push_cast
    ring

/-- `np.mean` is shift-equivariant on non-empty data. -/
theorem npMean_shift (xs : List ℚ) (h : xs ≠ []) (m : ℚ) :
    npMean (xs.map (fun x => x - m)) = npMean xs - m := by
  have hn : (xs.length : ℚ) ≠ 0 := by
    have := List.length_pos.mpr h
    positivity
  rw [npMean, npMean, List.length_map, sum_map_sub]
  field_simp

/-- The running minimum commutes with a shift. -/
theorem foldl_min_shift (t : List ℚ) : ∀ (a m : ℚ),
    (t.map (fun x => x - m)).foldl min (a - m) = t.foldl min a - m := by
  induction t with
  | nil => intro a m; rfl
  | cons x t ih =>
    intro a m
    simp only [List.map_cons, List.foldl_cons]
    rw [min_sub_sub_right a x m]
    exact ih (min a x) m

/-- `np.min` is shift-equivariant on non-empty data. -/
theorem npMin_shift (xs : List ℚ) (h : xs ≠ []) (m : ℚ) :
    npMin (xs.map (fun x => x - m)) = npMin xs - m := by
  cases xs with
  | nil => exact absurd rfl h
  | cons x t =>
    simp only [List.map_cons, npMin]
    exact foldl_min_shift t x m

/-- A header containing the noop column always yields a noop median. -/
theorem noopMedian_isSome (header : List String) (rows : List (List ℤ))
    (h : NOOP_COL ∈ header) : noopMedian? header rows ≠ none := by
  rw [noopMedian?]
  intro hcontra
  rw [Option.map_eq_none', List.getLast?_eq_none_iff, List.filter_eq_nil_iff] at hcontra
  have hfst : (header.zip (colSamples header.length rows)).map Prod.fst = header :=
    List.map_fst_zip _ _ (by rw [colSamples_length])
  rcases List.mem_map.mp (hfst ▸ h) with ⟨p, hp, hp1⟩
  exact hcontra p hp (by simp [hp1])

/-- C3: for every statistics-pipeline file with a "noop" column, letting m
be the median statistic of the filtered noop samples, `read_csv` appends
one adjusted record per column whose statistics are the raw statistics of
that column's samples shifted by -m; in particular the adjusted mean and
minimum equal the raw mean and minimum lowered by m, the subtracted
baseline is the noop median (not the noop mean), and without a "noop"
column only the raw records are produced. -/
theorem adjusted_stats_noop (header : List String) (rows : List (List ℤ)) :
    (NOOP_COL ∉ header → readCsv header rows = rawRows header rows) ∧
    (NOOP_COL ∈ header → noopMedian? header rows ≠ none) ∧
    (∀ m : ℚ, noopMedian? header rows = some m →
      (readCsv header rows = rawRows header rows ++ adjRows header rows m) ∧
      (∀ p, ((header.zip (colSamples header.length rows)).filter
          (fun q => q.1 == NOOP_COL)).getLast? = some p →
        m = (calcStats (p.2.map (fun v : ℤ => (v : ℚ)))).median) ∧
      (∀ (name : String) (samples : List ℤ),
        (name, samples) ∈ header.zip (colSamples header.length rows) →
        (CsvRow.mk name true
            (calcStats ((samples.map (fun v : ℤ => (v : ℚ))).map (fun x => x - m))))
          ∈ readCsv header rows ∧
        (samples ≠ [] →
          (calcStats ((samples.map (fun v : ℤ => (v : ℚ))).map (fun x => x - m))).mean
            = (calcStats (samples.map (fun v : ℤ => (v : ℚ)))).mean - m ∧
          (calcStats ((samples.map (fun v : ℤ => (v : ℚ))).map (fun x => x - m))).min
            = (calcStats (samples.map (fun v : ℤ => (v : ℚ)))).min - m))) := by
  refine ⟨?_, noopMedian_isSome header rows, ?_⟩
  · intro hnoop
    have hnone : noopMedian? header rows = none := by
      rw [noopMedian?, Option.map_eq_none', List.getLast?_eq_none_iff,
        List.filter_eq_nil_iff]
      intro p hp
      have hph : p.1 ∈ header := (List.of_mem_zip hp).1
      simp only [beq_iff_eq, NOOP_COL]
      intro heq
      rw [heq] at hph
      exact hnoop hph
    simp only [readCsv, hnone]
  · intro m hm
    refine ⟨by simp only [readCsv, hm], ?_, ?_⟩
    · intro p hp
      rw [noopMedian?, hp] at hm
      exact (Option.some.injEq _ _ ▸ hm).symm
    · intro name samples hmem
      have hmm : (samples.map (fun v : ℤ => (v : ℚ))).map (fun x => x - m)
          = samples.map (fun v : ℤ => (v : ℚ) - m) := by
        rw [List.map_map]
        rfl
      constructor
      · rw [hmm]
        simp only [readCsv, hm]
        exact List.mem_append_right _ (List.mem_map.mpr ⟨(name, samples), hmem, rfl⟩)
      · intro hne
        have hne2 : samples.map (fun v : ℤ => (v : ℚ)) ≠ [] :=
          fun hh => hne (List.map_eq_nil_iff.mp hh)
        exact ⟨npMean_shift _ hne2 m, npMin_shift _ hne2 m⟩

/-- Witness for C3: a file without a noop column produces only raw rows; a
file with columns ["noop", "b"] and samples [4, 6] / [10, 20] has noop
median 5, appends adjusted rows shifted by 5, and the adjusted mean of
column "b" is its raw mean lowered by 5. -/
theorem adjusted_stats_noop_witness :
    readCsv ["a"] [[1]] = rawRows ["a"] [[1]] ∧
    readCsv ["noop", "b"] [[4, 10], [6, 20]]
      = rawRows ["noop", "b"] [[4, 10], [6, 20]]
        ++ adjRows ["noop", "b"] [[4, 10], [6, 20]] 5 ∧
    (calcStats (([(10 : ℤ), 20].map (fun v : ℤ => (v : ℚ))).map (fun x => x - 5))).mean
      = (calcStats ([(10 : ℤ), 20].map (fun v : ℤ => (v : ℚ)))).mean - 5 := by
  have hm : noopMedian? ["noop", "b"] [[4, 10], [6, 20]] = some 5 := by
    have hlast : (((["noop", "b"] : List String).zip
          (colSamples (["noop", "b"] : List String).length [[4, 10], [6, 20]])).filter
        (fun p => p.1 == NOOP_COL)).getLast? = some ("noop", [4, 6]) := by decide
    rw [noopMedian?, hlast]
    norm_num [calcStats, npMedian, sortQ, List.insertionSort, List.orderedInsert]
  have hmem : ("b", ([10, 20] : List ℤ))
      ∈ (["noop", "b"].zip (colSamples (["noop", "b"] : List String).length
          [[4, 10], [6, 20]])) := by decide
  refine ⟨(adjusted_stats_noop ["a"] [[1]]).1 (by decide),
    ((adjusted_stats_noop ["noop", "b"] [[4, 10], [6, 20]]).2.2 5 hm).1, ?_⟩
  exact ((((adjusted_stats_noop ["noop", "b"] [[4, 10], [6, 20]]).2.2 5 hm).2.2
    "b" [10, 20] hmem).2 (by decide)).1

/-- The sort used by the median/percentile computations is sorted. -/
theorem sortQ_sorted (xs : List ℚ) : (sortQ xs).Sorted (· ≤ ·) :=
  List.sorted_insertionSort _ xs

/-- The sort is a permutation of the data. -/
theorem sortQ_perm (xs : List ℚ) : List.Perm (sortQ xs) xs :=
  List.perm_insertionSort _ xs

/-- Sorting preserves the number of samples. -/
theorem sortQ_length (xs : List ℚ) : (sortQ xs).length = xs.length :=
  (sortQ_perm xs).length_eq

/-- Sorting never turns a non-empty sample list empty. -/
theorem sortQ_ne_nil (xs : List ℚ) (hne : xs ≠ []) : sortQ xs ≠ [] := by
  intro h
  have := congrArg List.length h
  rw [sortQ_length] at this
  exact hne (List.length_eq_zero.mp this)

/-- In a sorted list, entries accessed through `getD` at in-range indices
are monotone, whatever the defaults. -/
theorem sorted_getD_mono (s : List ℚ) (hs : s.Sorted (· ≤ ·)) (i j : ℕ)
    (hij : i ≤ j) (hj : j < s.length) (d e : ℚ) :
    s.getD i d ≤ s.getD j e := by
  have hi : i < s.length := lt_of_le_of_lt hij hj
  rw [List.getD_eq_getElem s d hi, List.getD_eq_getElem s e hj]
  have := hs.rel_get_of_le (a := ⟨i, hi⟩) (b := ⟨j, hj⟩) hij
  simpa [List.get_eq_getElem] using this

/-- The two neighbouring order statistics used by `interp` are ordered. -/
theorem interp_getD_le (s : List ℚ) (hs : s.Sorted (· ≤ ·)) (k : ℕ) :
    s.getD k 0 ≤ s.getD (k + 1) (s.getD k 0) := by
  by_cases h : k + 1 < s.length
  · exact sorted_getD_mono s hs k (k + 1) (by omega) h 0 _
  · rw [List.getD_eq_default s (s.getD k 0) (show s.length ≤ k + 1 by omega)]

/-- Unfolded form of `interp`. -/
theorem interp_def (s : List ℚ) (rank : ℚ) :
    interp s rank
      = s.getD (⌊rank⌋).toNat 0
        + (rank - (((⌊rank⌋).toNat : ℕ) : ℚ))
          * (s.getD ((⌊rank⌋).toNat + 1) (s.getD (⌊rank⌋).toNat 0)
              - s.getD (⌊rank⌋).toNat 0) := rfl

/-- The floor of a non-negative rational, through `Int.toNat`. -/
theorem floor_toNat_cast (r : ℚ) (h0 : 0 ≤ r) :
    (((⌊r⌋).toNat : ℕ) : ℚ) = ((⌊r⌋ : ℤ) : ℚ) := by
  have := Int.toNat_of_nonneg (Int.floor_nonneg.mpr h0)
  exact_mod_cast congrArg (fun z : ℤ => (z : ℚ)) this

/-- The interpolated value lies above its left order statistic. -/
theorem interp_left_le (s : List ℚ) (hs : s.Sorted (· ≤ ·)) (r : ℚ) (h0 : 0 ≤ r) :
    s.getD (⌊r⌋).toNat 0 ≤ interp s r := by
  rw [interp_def]
  have hkr : ((((⌊r⌋).toNat : ℕ)) : ℚ) ≤ r := by
    rw [floor_toNat_cast r h0]
    exact Int.floor_le r
  have hlohi := interp_getD_le s hs (⌊r⌋).toNat
  nlinarith

/-- The interpolated value lies below its right order statistic. -/
theorem interp_le_right (s : List ℚ) (hs : s.Sorted (· ≤ ·)) (r : ℚ) (h0 : 0 ≤ r) :
    interp s r ≤ s.getD ((⌊r⌋).toNat + 1) (s.getD (⌊r⌋).toNat 0) := by
  rw [interp_def]
  have hkr1 : r < ((((⌊r⌋).toNat : ℕ)) : ℚ) + 1 := by
    rw [floor_toNat_cast r h0]
    exact_mod_cast Int.lt_floor_add_one r
  have hlohi := interp_getD_le s hs (⌊r⌋).toNat
  nlinarith

/-- Monotonicity of linear interpolation between the order statistics of a
sorted list, for ranks within the data range. -/
theorem interp_mono (s : List ℚ) (hs : s.Sorted (· ≤ ·)) (hne : s ≠ [])
    (r r' : ℚ) (h0 : 0 ≤ r) (hrr : r ≤ r') (hub : r' ≤ (s.length : ℚ) - 1) :
    interp s r ≤ interp s r' := by
  have h0' : 0 ≤ r' := le_trans h0 hrr
  have hkk : (⌊r⌋).toNat ≤ (⌊r'⌋).toNat :=
    Int.toNat_le_toNat (Int.floor_le_floor hrr)
  have hn1 : 1 ≤ s.length := List.length_pos.mpr hne
  have hk'n : (⌊r'⌋).toNat < s.length := by
    have h1 : ((⌊r'⌋ : ℤ) : ℚ) ≤ (s.length : ℚ) - 1 := le_trans (Int.floor_le r') hub
    have h2 : ⌊r'⌋ ≤ (s.length : ℤ) - 1 := by exact_mod_cast h1
    omega
  rcases Nat.eq_or_lt_of_le hkk with heq | hlt
  · rw [interp_def, interp_def, ← heq]
    have hlohi := interp_getD_le s hs (⌊r⌋).toNat
    have hkr : ((((⌊r⌋).toNat : ℕ)) : ℚ) ≤ r := by
      rw [floor_toNat_cast r h0]
      exact Int.floor_le r
    nlinarith
  · calc interp s r
        ≤ s.getD ((⌊r⌋).toNat + 1) (s.getD (⌊r⌋).toNat 0) :=
          interp_le_right s hs r h0
      _ ≤ s.getD (⌊r'⌋).toNat 0 :=
          sorted_getD_mono s hs _ _ (by omega) hk'n _ _
      _ ≤ interp s r' := interp_left_le s hs r' h0'

/-- `np.percentile` is monotone in the requested percentile. -/
theorem percentileQ_mono (xs : List ℚ) (hne : xs ≠ []) (q q' : ℚ)
    (h0 : 0 ≤ q) (hqq : q ≤ q') (h100 : q' ≤ 100) :
    percentileQ xs q ≤ percentileQ xs q' := by
  have hlen1 : 1 ≤ xs.length := List.length_pos.mpr hne
  have hn1 : (0 : ℚ) ≤ (xs.length : ℚ) - 1 := by
    have : (1 : ℚ) ≤ (xs.length : ℚ) := by exact_mod_cast hlen1
    linarith
  rw [percentileQ, percentileQ]
  apply interp_mono _ (sortQ_sorted xs) (sortQ_ne_nil xs hne)
  · exact div_nonneg (mul_nonneg h0 hn1) (by norm_num)
  · have h := mul_le_mul_of_nonneg_right hqq hn1
    linarith
  · rw [sortQ_length, div_le_iff₀ (by norm_num : (0:ℚ) < 100)]
    nlinarith

/-- Interpolation at rank 0 is the first order statistic. -/
theorem interp_zero (s : List ℚ) : interp s 0 = s.getD 0 0 := by
  rw [interp_def]
  norm_num

/-- Interpolation at the top rank is the last order statistic. -/
theorem interp_last (s : List ℚ) (hne : s ≠ []) :
    interp s ((s.length : ℚ) - 1) = s.getD (s.length - 1) 0 := by
  have hlen1 : 1 ≤ s.length := List.length_pos.mpr hne
  have hfl : ⌊(s.length : ℚ) - 1⌋ = (s.length : ℤ) - 1 := by
    have hcast : ((s.length : ℚ) - 1) = (((s.length : ℤ) - 1 : ℤ) : ℚ) := by
      push_cast
      ring
    rw [hcast, Int.floor_intCast]
  have htn : ((s.length : ℤ) - 1).toNat = s.length - 1 := by omega
  have hc : (((s.length - 1 : ℕ)) : ℚ) = (s.length : ℚ) - 1 := by
    have : ((s.length - 1 : ℕ) : ℤ) = (s.length : ℤ) - 1 := by omega
    exact_mod_cast congrArg (fun z : ℤ => (z : ℚ)) this
  rw [interp_def, hfl, htn, hc]
  ring

/-- The running minimum is below its starting value. -/
theorem foldl_min_le_self : ∀ (t : List ℚ) (a : ℚ), t.foldl min a ≤ a
  | [], a => le_refl a
  | x :: t, a => le_trans (foldl_min_le_self t (min a x)) (min_le_left a x)

/-- The running minimum is below every element. -/
theorem foldl_min_le_mem : ∀ (t : List ℚ) (a y : ℚ), y ∈ t → t.foldl min a ≤ y
  | x :: t, a, y, hy => by
    rcases List.mem_cons.mp hy with rfl | hy
    · exact le_trans (foldl_min_le_self t (min a y)) (min_le_right a y)
    · exact foldl_min_le_mem t (min a x) y hy

/-- The running minimum is the start or one of the elements. -/
theorem foldl_min_mem : ∀ (t : List ℚ) (a : ℚ), t.foldl min a = a ∨ t.foldl min a ∈ t
  | [], _ => Or.inl rfl
  | x :: t, a => by
    rw [List.foldl_cons]
    rcases foldl_min_mem t (min a x) with h | h
    · rcases min_choice a x with hmin | hmin
      · exact Or.inl (by rw [h, hmin])
      · exact Or.inr (by rw [h, hmin]; exact List.mem_cons_self x t)
    · exact Or.inr (List.mem_cons_of_mem x h)

/-- `np.min` of non-empty data is one of the samples. -/
theorem npMin_mem (xs : List ℚ) (hne : xs ≠ []) : npMin xs ∈ xs := by
  cases xs with
  | nil => exact absurd rfl hne
  | cons x t =>
    rcases foldl_min_mem t x with h | h
    · rw [npMin, h]
      exact List.mem_cons_self x t
    · exact List.mem_cons_of_mem x h

/-- `np.min` is below every sample. -/
theorem npMin_le (xs : List ℚ) (y : ℚ) (hy : y ∈ xs) : npMin xs ≤ y := by
  cases xs with
  | nil => exact absurd hy (List.not_mem_nil y)
  | cons x t =>
    rcases List.mem_cons.mp hy with rfl | hy
    · exact foldl_min_le_self t y
    · exact foldl_min_le_mem t x y hy

/-- The running maximum is above its starting value. -/
theorem foldl_max_ge_self : ∀ (t : List ℚ) (a : ℚ), a ≤ t.foldl max a
  | [], a => le_refl a
  | x :: t, a => le_trans (le_max_left a x) (foldl_max_ge_self t (max a x))

/-- The running maximum is above every element. -/
theorem foldl_max_ge_mem : ∀ (t : List ℚ) (a y : ℚ), y ∈ t → y ≤ t.foldl max a
  | x :: t, a, y, hy => by
    rcases List.mem_cons.mp hy with rfl | hy
    · exact le_trans (le_max_right a y) (foldl_max_ge_self t (max a y))
    · exact foldl_max_ge_mem t (max a x) y hy

/-- The running maximum is the start or one of the elements. -/
theorem foldl_max_mem : ∀ (t : List ℚ) (a : ℚ), t.foldl max a = a ∨ t.foldl max a ∈ t
  | [], _ => Or.inl rfl
  | x :: t, a => by
    rw [List.foldl_cons]
    rcases foldl_max_mem t (max a x) with h | h
    · rcases max_choice a x with hmax | hmax
      · exact Or.inl (by rw [h, hmax])
      · exact Or.inr (by rw [h, hmax]; exact List.mem_cons_self x t)
    · exact Or.inr (List.mem_cons_of_mem x h)

/-- `np.max` of non-empty data is one of the samples. -/
theorem npMax_mem (xs : List ℚ) (hne : xs ≠ []) : npMax xs ∈ xs := by
  cases xs with
  | nil => exact absurd rfl hne
  | cons x t =>
    rcases foldl_max_mem t x with h | h
    · rw [npMax, h]
      exact List.mem_cons_self x t
    · exact List.mem_cons_of_mem x h

/-- `np.max` is above every sample. -/
theorem npMax_ge (xs : List ℚ) (y : ℚ) (hy : y ∈ xs) : y ≤ npMax xs := by
  cases xs with
  | nil => exact absurd hy (List.not_mem_nil y)
  | cons x t =>
    rcases List.mem_cons.mp hy with rfl | hy
    · exact foldl_max_ge_self t y
    · exact foldl_max_ge_mem t x y hy

/-- The head of a sorted list is below every member. -/
theorem sorted_head_le (s : List ℚ) (hs : s.Sorted (· ≤ ·)) (y : ℚ) (hy : y ∈ s) :
    s.getD 0 0 ≤ y := by
  cases s with
  | nil => exact absurd hy (List.not_mem_nil y)
  | cons a t =>
    rcases List.mem_cons.mp hy with rfl | hy
    · exact le_refl y
    · exact List.rel_of_sorted_cons hs y hy

/-- Every member of a sorted list is below its last entry. -/
theorem sorted_le_last (s : List ℚ) (hs : s.Sorted (· ≤ ·)) (y : ℚ) (hy : y ∈ s) :
    y ≤ s.getD (s.length - 1) 0 := by
  obtain ⟨i, hi, rfl⟩ := List.getElem_of_mem hy
  rw [← List.getD_eq_getElem s 0 hi]
  exact sorted_getD_mono s hs i (s.length - 1) (by omega) (by omega) 0 0

/-- `np.min` is the first order statistic of the sorted data. -/
theorem npMin_eq_sorted_head (xs : List ℚ) (hne : xs ≠ []) :
    npMin xs = (sortQ xs).getD 0 0 := by
  have hperm := sortQ_perm xs
  have hs := sortQ_sorted xs
  have hne' := sortQ_ne_nil xs hne
  apply le_antisymm
  · apply npMin_le
    apply hperm.mem_iff.mp
    cases hsx : sortQ xs with
    | nil => exact absurd hsx hne'
    | cons a t =>
      rw [List.getD_cons_zero]
      exact List.mem_cons_self a t
  · exact sorted_head_le _ hs _ (hperm.mem_iff.mpr (npMin_mem xs hne))

/-- `np.max` is the last order statistic of the sorted data. -/
theorem npMax_eq_sorted_last (xs : List ℚ) (hne : xs ≠ []) :
    npMax xs = (sortQ xs).getD ((sortQ xs).length - 1) 0 := by
  have hperm := sortQ_perm xs
  have hs := sortQ_sorted xs
  have hne' := sortQ_ne_nil xs hne
  have hlen1 : 1 ≤ (sortQ xs).length := List.length_pos.mpr hne'
  apply le_antisymm
  · exact sorted_le_last _ hs _ (hperm.mem_iff.mpr (npMax_mem xs hne))
  · apply npMax_ge
    apply hperm.mem_iff.mp
    rw [List.getD_eq_getElem (sortQ xs) 0 (by omega)]
    exact List.getElem_mem _

/-- `np.median` (average of the two middle order statistics) equals the
linear interpolation at rank (n - 1) / 2, the rank used by the 50th
percentile. -/
theorem npMedian_eq_interp (xs : List ℚ) (hne : xs ≠ []) :
    npMedian xs = interp (sortQ xs) (((xs.length : ℚ) - 1) / 2) := by
  have hsl : (sortQ xs).length = xs.length := sortQ_length xs
  have hlen1 : 1 ≤ xs.length := List.length_pos.mpr hne
  rcases Nat.even_or_odd xs.length with ⟨t, ht⟩ | ⟨t, ht⟩
  · have ht1 : 1 ≤ t := by omega
    have ht1q : (1 : ℚ) ≤ (t : ℚ) := by exact_mod_cast ht1
    have hrank : ((xs.length : ℚ) - 1) / 2 = (t : ℚ) - 1 / 2 := by
      rw [ht]; push_cast; ring
    have hfl : ⌊(t : ℚ) - 1 / 2⌋ = (t : ℤ) - 1 := by
      apply Int.floor_eq_iff.mpr
      constructor
      · push_cast
        linarith
      · push_cast
        linarith
    have htn : ((t : ℤ) - 1).toNat = t - 1 := by omega
    have hcast : (((t - 1 : ℕ)) : ℚ) = (t : ℚ) - 1 := by
      have h := Int.ofNat_sub ht1
      exact_mod_cast congrArg (fun z : ℤ => (z : ℚ)) h
    have hidx : t - 1 + 1 = t := by omega
    have htlt : t < (sortQ xs).length := by omega
    have ht1lt : t - 1 < (sortQ xs).length := by omega
    have hi1 : (t + t - 1) / 2 = t - 1 := by omega
    have hi2 : (t + t) / 2 = t := by omega
    have hB : (sortQ xs).getD t ((sortQ xs).getD (t - 1) 0) = (sortQ xs).getD t 0 := by
      rw [List.getD_eq_getElem _ _ htlt, List.getD_eq_getElem _ _ htlt]
    simp only [npMedian]
    rw [interp_def, hrank, hfl, htn, hcast, hidx, hsl, ht, hi1, hi2, hB]
    ring
  · have hrank : ((xs.length : ℚ) - 1) / 2 = (t : ℚ) := by
      rw [ht]; push_cast; ring
    have hfl : ⌊(t : ℚ)⌋ = (t : ℤ) := Int.floor_natCast t
    have htn : ((t : ℤ)).toNat = t := by omega
    have hi1 : (xs.length - 1) / 2 = t := by omega
    have hi2 : xs.length / 2 = t := by omega
    simp only [npMedian]
    rw [interp_def, hrank, hfl, htn, hsl, hi1, hi2]
    ring

/-- C5: for every non-empty sample list, the computed statistics satisfy
iqr = p75 - p25 exactly, and the order chain
min ≤ p1 ≤ p25 ≤ p50 ≤ median ≤ p75 ≤ p99 ≤ max holds, with the
percentiles linearly interpolated between order statistics. -/
theorem stats_order_chain (xs : List ℚ) (hne : xs ≠ []) :
    (calcStats xs).iqr = (calcStats xs).p75 - (calcStats xs).p25 ∧
    (calcStats xs).min ≤ (calcStats xs).p1 ∧
    (calcStats xs).p1 ≤ (calcStats xs).p25 ∧
    (calcStats xs).p25 ≤ (calcStats xs).p50 ∧
    (calcStats xs).p50 ≤ (calcStats xs).median ∧
    (calcStats xs).median ≤ (calcStats xs).p75 ∧
    (calcStats xs).p75 ≤ (calcStats xs).p99 ∧
    (calcStats xs).p99 ≤ (calcStats xs).max := by
  have hne' := sortQ_ne_nil xs hne
  have hmin : npMin xs = percentileQ xs 0 := by
    rw [npMin_eq_sorted_head xs hne, percentileQ,
      show (0 : ℚ) * ((xs.length : ℚ) - 1) / 100 = 0 by ring, interp_zero]
  have hmax : npMax xs = percentileQ xs 100 := by
    rw [npMax_eq_sorted_last xs hne, percentileQ,
      show (100 : ℚ) * ((xs.length : ℚ) - 1) / 100 = (xs.length : ℚ) - 1 by ring,
      show ((xs.length : ℚ)) = ((sortQ xs).length : ℚ) by rw [sortQ_length],
      interp_last _ hne']
  have hmed : npMedian xs = percentileQ xs 50 := by
    rw [npMedian_eq_interp xs hne, percentileQ]
    congr 1
    ring
  refine ⟨rfl, ?_, ?_, ?_, ?_, ?_, ?_, ?_⟩
  · show npMin xs ≤ percentileQ xs 1
    rw [hmin]
    exact percentileQ_mono xs hne 0 1 (by norm_num) (by norm_num) (by norm_num)
  · exact percentileQ_mono xs hne 1 25 (by norm_num) (by norm_num) (by norm_num)
  · exact percentileQ_mono xs hne 25 50 (by norm_num) (by norm_num) (by norm_num)
  · show percentileQ xs 50 ≤ npMedian xs
    rw [hmed]
  · show npMedian xs ≤ percentileQ xs 75
    rw [hmed]
    exact percentileQ_mono xs hne 50 75 (by norm_num) (by norm_num) (by norm_num)
  · exact percentileQ_mono xs hne 75 99 (by norm_num) (by norm_num) (by norm_num)
  · show percentileQ xs 99 ≤ npMax xs
    rw [hmax]
    exact percentileQ_mono xs hne 99 100 (by norm_num) (by norm_num) (by norm_num)

/-- Witness for C5 at the concrete sample list [3, 1, 2]. -/
theorem stats_order_chain_witness :
    (calcStats [3, 1, 2]).iqr = (calcStats [3, 1, 2]).p75 - (calcStats [3, 1, 2]).p25 ∧
    (calcStats [3, 1, 2]).min ≤ (calcStats [3, 1, 2]).p1 ∧
    (calcStats [3, 1, 2]).p1 ≤ (calcStats [3, 1, 2]).p25 ∧
    (calcStats [3, 1, 2]).p25 ≤ (calcStats [3, 1, 2]).p50 ∧
    (calcStats [3, 1, 2]).p50 ≤ (calcStats [3, 1, 2]).median ∧
    (calcStats [3, 1, 2]).median ≤ (calcStats [3, 1, 2]).p75 ∧
    (calcStats [3, 1, 2]).p75 ≤ (calcStats [3, 1, 2]).p99 ∧
    (calcStats [3, 1, 2]).p99 ≤ (calcStats [3, 1, 2]).max :=
  stats_order_chain [3, 1, 2] (by decide)

/-- C6: end-to-end statistics pipeline on a single CPU directory with one
mitigation and one kernel file with columns ["noop",
"syscall_sys_ni_syscall"] and samples [100,102,101,99,103] /
[150,151,149,152,148]: exactly 4 output rows are produced (2 columns × 2
adjusted flags), the raw noop median is 101, and the adjusted median of
the syscall column is 150 - 101 = 49. -/
theorem cycle_stats_end_to_end :
    (readCpus [⟨"cpu0", [⟨"mitigations=auto",
        [⟨"cycles-linux.csv", ["noop", "syscall_sys_ni_syscall"],
          [[100, 150], [102, 151], [101, 149], [99, 152], [103, 148]]⟩]⟩]⟩]).length
      = 4 ∧
    (readCpus [⟨"cpu0", [⟨"mitigations=auto",
        [⟨"cycles-linux.csv", ["noop", "syscall_sys_ni_syscall"],
          [[100, 150], [102, 151], [101, 149], [99, 152], [103, 148]]⟩]⟩]⟩]).map
        (fun r => (r.cpu, r.mitigation, r.kernel, r.row.benchmark, r.row.adjusted))
      = [("cpu0", "mitigations=auto", "linux", "noop", false),
         ("cpu0", "mitigations=auto", "linux", "syscall_sys_ni_syscall", false),
         ("cpu0", "mitigations=auto", "linux", "noop", true),
         ("cpu0", "mitigations=auto", "linux", "syscall_sys_ni_syscall", true)] ∧
    (readCpus [⟨"cpu0", [⟨"mitigations=auto",
        [⟨"cycles-linux.csv", ["noop", "syscall_sys_ni_syscall"],
          [[100, 150], [102, 151], [101, 149], [99, 152], [103, 148]]⟩]⟩]⟩]).map
        (fun r => r.row.stats.median)
      = [101, 150, 0, 49] := by
  have hmatch : matchCycles "cycles-linux.csv" = some "linux" := by decide
  have hcol : colSamples 2 [[100, 150], [102, 151], [101, 149], [99, 152], [103, 148]]
      = [[100, 102, 101, 99, 103], [150, 151, 149, 152, 148]] := by decide
  have hmed1 : (calcStats ([100, 102, 101, 99, 103] : List ℚ)).median = 101 := by
    norm_num [calcStats, npMedian, sortQ, List.insertionSort, List.orderedInsert]
  have hmed2 : (calcStats ([150, 151, 149, 152, 148] : List ℚ)).median = 150 := by
    norm_num [calcStats, npMedian, sortQ, List.insertionSort, List.orderedInsert]
  have hmed3 : (calcStats ([-1, 1, 0, -2, 2] : List ℚ)).median = 0 := by
    norm_num [calcStats, npMedian, sortQ, List.insertionSort, List.orderedInsert]
  have hmed4 : (calcStats ([49, 50, 48, 51, 47] : List ℚ)).median = 49 := by
    norm_num [calcStats, npMedian, sortQ, List.insertionSort, List.orderedInsert]
  have hlast : (((["noop", "syscall_sys_ni_syscall"] : List String).zip
        (colSamples (["noop", "syscall_sys_ni_syscall"] : List String).length
          [[100, 150], [102, 151], [101, 149], [99, 152], [103, 148]])).filter
      (fun p => p.1 == NOOP_COL)).getLast? = some ("noop", [100, 102, 101, 99, 103]) := by
    decide
  have hnm : noopMedian? ["noop", "syscall_sys_ni_syscall"]
      [[100, 150], [102, 151], [101, 149], [99, 152], [103, 148]] = some 101 := by
    rw [noopMedian?, hlast]
    show some ((calcStats (([100, 102, 101, 99, 103] : List ℤ).map
        (fun v : ℤ => (v : ℚ)))).median) = some 101
    norm_num [hmed1]
  refine ⟨?_, ?_, ?_⟩ <;>
    norm_num [readCpus, readMitigations, readKernels, hmatch, readCsv, hnm,
      rawRows, adjRows, hcol, hmed1, hmed2, hmed3, hmed4, List.zip_cons_cons]
